import Mathlib

/-!
Verification of the particle-filter core in `robot_localization/pf.py`.

Shallow embedding conventions:

* numpy `float64` values are modelled exactly by `NpFloat`: a rational for
  finite values plus the three special values `inf`, `ninf` (negative
  infinity) and `nan`.  The arithmetic on special values (propagation of
  `nan`, `inf - inf = nan`, division by zero producing infinities,
  `0/0 = nan`, comparisons with `nan` being false, ...) follows IEEE-754 /
  numpy semantics exactly; finite arithmetic is exact rational arithmetic.
  There is no signed zero (it plays no role in any claim considered here).
* Poses (`x`, `y`, `theta`) are real numbers, since the motion update uses
  `cos`/`sin`/`arctan2` on them.
* Randomness (`np.random.choice` draws, `np.random.uniform` perturbations)
  is supplied by oracle functions; `np.random.choice` is modelled by its
  documented argument checks followed by the guarantee that every returned
  index lies in `range(n)` (the drawn values themselves come from the
  oracle, reduced mod `n`).
* A raised Python exception is modelled by `Except.error` with the numpy
  error message; `np.argmax` on an empty array (which raises) is modelled
  by `Option.none` in `update_robot_pose`.
-/

/-- Exact model of a numpy `float64` value: a rational, or one of the
special values `inf`, `-inf`, `nan`. -/
inductive NpFloat : Type where
  | fin (q : ℚ)
  | inf
  | ninf
  | nan
deriving DecidableEq

namespace NpFloat

/-- Model of `np.isnan`. -/
def isNaN : NpFloat → Bool
  | nan => true
  | _ => false

/-- Model of `np.isfinite`. -/
def isFinite : NpFloat → Bool
  | fin _ => true
  | _ => false

/-- IEEE-754 addition on the embedded floats (exact on finite values). -/
def add : NpFloat → NpFloat → NpFloat
  | nan, _ => nan
  | _, nan => nan
  | inf, ninf => nan
  | ninf, inf => nan
  | inf, _ => inf
  | _, inf => inf
  | ninf, _ => ninf
  | _, ninf => ninf
  | fin a, fin b => fin (a + b)

/-- IEEE-754 subtraction on the embedded floats (exact on finite values). -/
def sub : NpFloat → NpFloat → NpFloat
  | nan, _ => nan
  | _, nan => nan
  | inf, inf => nan
  | ninf, ninf => nan
  | inf, _ => inf
  | ninf, _ => ninf
  | _, inf => ninf
  | _, ninf => inf
  | fin a, fin b => fin (a - b)

/-- Model of `np.abs`. -/
def abs : NpFloat → NpFloat
  | nan => nan
  | inf => inf
  | ninf => inf
  | fin a => fin |a|

/-- IEEE-754 multiplication on the embedded floats (`inf * 0 = nan`). -/
def mul : NpFloat → NpFloat → NpFloat
  | nan, _ => nan
  | _, nan => nan
  | inf, inf => inf
  | inf, ninf => ninf
  | ninf, inf => ninf
  | ninf, ninf => inf
  | inf, fin b => if b = 0 then nan else if 0 < b then inf else ninf
  | fin a, inf => if a = 0 then nan else if 0 < a then inf else ninf
  | ninf, fin b => if b = 0 then nan else if 0 < b then ninf else inf
  | fin a, ninf => if a = 0 then nan else if 0 < a then ninf else inf
  | fin a, fin b => fin (a * b)

/-- IEEE-754 division on the embedded floats: `x/0` is a signed infinity
for `x ≠ 0`, `0/0 = nan`, `inf/inf = nan`, `finite/inf = 0`.  With no
signed zero, division of an infinity by zero takes the sign of the
numerator. -/
def div : NpFloat → NpFloat → NpFloat
  | nan, _ => nan
  | _, nan => nan
  | inf, inf => nan
  | inf, ninf => nan
  | ninf, inf => nan
  | ninf, ninf => nan
  | inf, fin b => if 0 ≤ b then inf else ninf
  | ninf, fin b => if 0 ≤ b then ninf else inf
  | fin _, inf => fin 0
  | fin _, ninf => fin 0
  | fin a, fin b =>
    if b = 0 then (if a = 0 then nan else if 0 < a then inf else ninf)
    else fin (a / b)

/-- Model of `np.sum` (exact left fold; on the special-value structure this agrees
with numpy's pairwise summation: any `nan` makes the sum `nan`, otherwise
any `inf` makes it `inf` in the absence of `-inf`). -/
def sum (l : List NpFloat) : NpFloat := l.foldl add (fin 0)

/-- IEEE-754 `<=` (any comparison involving `nan` is false). -/
def le : NpFloat → NpFloat → Bool
  | nan, _ => false
  | _, nan => false
  | ninf, _ => true
  | _, inf => true
  | inf, _ => false
  | fin _, ninf => false
  | fin a, fin b => decide (a ≤ b)

/-- IEEE-754 `<` (any comparison involving `nan` is false). -/
def lt : NpFloat → NpFloat → Bool
  | nan, _ => false
  | _, nan => false
  | ninf, ninf => false
  | ninf, _ => true
  | _, ninf => false
  | inf, _ => false
  | fin _, inf => true
  | fin a, fin b => decide (a < b)

end NpFloat

/-- A pose hypothesis, as in class `Particle` of `pf.py`: map-frame
position `(x, y)`, map-frame heading `theta` (radians), and weight `w`
(a numpy float, written by the measurement update). -/
structure Particle : Type where
  x : ℝ
  y : ℝ
  theta : ℝ
  w : NpFloat

instance : Inhabited Particle := ⟨⟨0, 0, 0, NpFloat.fin 1⟩⟩

/-! ### Measurement update (`update_particles_with_laser`)

The occupancy-field query `get_closest_obstacle_distance` is an external
collaborator; its per-particle answers are passed in as the list
`dists` (one numpy float per particle, `nan` for "unknown").
`robot_distance` is `np.min(r)`, the robot's observed minimum range. -/

/-- The vector `errors` of `update_particles_with_laser`:
`errors = np.abs(particle_distances - robot_distance)` followed by
`errors[np.isnan(errors)] = 5`. -/
def laser_errors (dists : List NpFloat) (robot_distance : NpFloat) : List NpFloat :=
  dists.map fun d =>
    let e := (d.sub robot_distance).abs
    if e.isNaN then NpFloat.fin 5 else e

/-- The vector `error_ratio = errors[0] / errors` (elementwise; `errors[0]`
on an empty array would raise in Python, the `headD nan` default is never
used on the empty list since the result is `[]` anyway). -/
def laser_ratio_vec (errors : List NpFloat) : List NpFloat :=
  errors.map fun e => (errors.headD NpFloat.nan).div e

/-- The vector `weights = error_ratio / np.sum(error_ratio)` computed by
`update_particles_with_laser`. -/
def laser_weights (dists : List NpFloat) (robot_distance : NpFloat) : List NpFloat :=
  let ratio := laser_ratio_vec (laser_errors dists robot_distance)
  ratio.map fun x => x.div (NpFloat.sum ratio)

/-- The final per-particle weight write-back loop of
`update_particles_with_laser`: particle `i` gets `weights[i]`, with a
`nan` result coerced to `0`. -/
def update_particles_with_laser (cloud : List Particle) (dists : List NpFloat)
    (robot_distance : NpFloat) : List Particle :=
  let ws := laser_weights dists robot_distance
  cloud.enum.map fun ip =>
    let wi := ws.getD ip.1 NpFloat.nan
    if wi.isNaN then { ip.2 with w := NpFloat.fin 0 } else { ip.2 with w := wi }

/-! Spec-side formulation of the measurement-update weight formula
(§4.5 of the spec), used to state the refinement claim C1. -/

/-- Written from the spec's words: `error_i = |predicted_distance_i -
observed_min_range|`, with an unknown (`nan`) predicted distance
contributing an error of exactly `5`. -/
def spec_errors (dists : List NpFloat) (observed_min_range : NpFloat) : List NpFloat :=
  dists.map fun d =>
    if d.isNaN then NpFloat.fin 5 else (d.sub observed_min_range).abs

/-- Written from the spec's words: `ratio_i = error_0 / error_i`,
`w_i = ratio_i / sum(ratio)`. -/
def spec_weights (dists : List NpFloat) (observed_min_range : NpFloat) : List NpFloat :=
  let errs := spec_errors dists observed_min_range
  let ratio := errs.map fun e => (errs.headD NpFloat.nan).div e
  ratio.map fun r => r.div (NpFloat.sum ratio)

/-! ### Pose estimator (`update_robot_pose`)

`np.argmax` is modelled after numpy's loop for floats: the running maximum
starts at element 0, an element replaces it when the comparison
`current <= running` fails (which also catches `nan`), and the loop stops
advancing once the running maximum is `nan`. -/

/-- The scanning loop of numpy's `argmax` for floats: `i` is the index of
the head of `l` in the full array, `mp` the running maximum, `imax` its
index. -/
def np_argmax_go : List NpFloat → ℕ → NpFloat → ℕ → ℕ
  | [], _, _, imax => imax
  | x :: xs, i, mp, imax =>
    if mp.isNaN then imax
    else if x.le mp then np_argmax_go xs (i + 1) mp imax
    else np_argmax_go xs (i + 1) x i

/-- Model of `np.argmax` (the empty case raises in numpy; the `0` here is junk that
`update_robot_pose` never reaches since it returns `none` on an empty
cloud first). -/
def np_argmax : List NpFloat → ℕ
  | [] => 0
  | x :: xs => np_argmax_go xs 1 x 0

/-- Model of `update_robot_pose`: select the particle with the highest weight and
return its pose; `none` models the numpy error raised on an empty
population.  The side effect of correcting the map-to-odom transform is an
external-collaborator call outside the embedding. -/
def update_robot_pose (cloud : List Particle) : Option (ℝ × ℝ × ℝ) :=
  match cloud with
  | [] => none
  | p :: ps =>
    let i := np_argmax ((p :: ps).map Particle.w)
    let q := (p :: ps).getD i p
    some (q.x, q.y, q.theta)

/-- Model of `initialize_particle_cloud` with an explicit mean pose: `n` particles
at `(x0, y0)`, headings fanned out by `delta_theta = 2*pi/n`, followed by
`update_robot_pose` on the fresh population.  (The constructor fixes
`n_particles = 100`; the count is a parameter here.  With `xy_theta`
omitted the same code runs on the odometry pose, which is just a different
value of the argument.) -/
noncomputable def initialize_particle_cloud (n : ℕ) (xy_theta : ℝ × ℝ × ℝ) :
    List Particle × Option (ℝ × ℝ × ℝ) :=
  let delta_theta : ℝ := 2 * Real.pi / n
  let cloud := (List.range n).map fun i =>
    ⟨xy_theta.1, xy_theta.2.1, xy_theta.2.2 + delta_theta * i, NpFloat.fin 1⟩
  (cloud, update_robot_pose cloud)

/-! ### Motion update (`update_particles_with_odom`)

`create_pose` is the 3x3 homogeneous rigid-transform matrix of `pf.py`;
the update composes each particle's pose with
`delta = inv(current) * new` and re-extracts `(x, y, theta)`, the heading
via `np.arctan2` of the rotation block.  `np.linalg.inv` on an invertible
matrix is exact matrix inversion here (exact arithmetic). -/

/-- Model of `np.arctan2 y x`: the angle of the point `(x, y)`, in `(-pi, pi]`
(modelled by the complex argument; with exact reals there are no signed
zeros, which is where numpy's convention would differ). -/
noncomputable def arctan2 (y x : ℝ) : ℝ := Complex.arg ⟨x, y⟩

/-- Model of `create_pose` of `pf.py`. -/
noncomputable def create_pose (v : ℝ × ℝ × ℝ) : Matrix (Fin 3) (Fin 3) ℝ :=
  !![Real.cos v.2.2, -Real.sin v.2.2, v.1;
     Real.sin v.2.2, Real.cos v.2.2, v.2.1;
     0, 0, 1]

/-- Model of `update_particles_with_odom`, in the branch where a previous odometry
reference exists (`current_odom`): every particle is right-multiplied by
`delta = inv(create_pose current_odom) * create_pose new_odom` and its
pose re-extracted.  (In the other branch the reference is recorded and no
particle moves.) -/
noncomputable def update_particles_with_odom (cloud : List Particle)
    (current_odom new_odom : ℝ × ℝ × ℝ) : List Particle :=
  let delta_matrix := (create_pose current_odom)⁻¹ * create_pose new_odom
  cloud.map fun p =>
    let m := create_pose (p.x, p.y, p.theta) * delta_matrix
    ⟨m 0 2, m 1 2, arctan2 (m 1 0) (m 0 0), p.w⟩

/-! ### Resampler (`resample_particles`)

`np.percentile(weights, 20)` sorts the weights and linearly interpolates
at the virtual index `(n-1)*20/100`.  Sorting is modelled by insertion
sort under numpy's float sort order (`-inf < finite < inf < nan`, `nan`
sorting last); since that order is total and antisymmetric, the sorted
value sequence is the same one numpy's introsort produces.

`np.random.choice(range(n), k, p=weights)` performs its documented
argument checks — `p` of matching length, no negative entry, and
`abs(sum(p) - 1) <= atol` with `atol = sqrt(float64 eps) = 2^-26` —
raising `ValueError` otherwise, and then returns `k` indices in
`range(n)`; the randomness of the draw is abstracted by the `draws`
oracle (reduced mod `n`, preserving the in-range guarantee). -/

/-- numpy's sort order on floats: `-inf < finite < inf < nan`. -/
def np_sort_le : NpFloat → NpFloat → Bool
  | NpFloat.ninf, _ => true
  | NpFloat.fin a, NpFloat.fin b => decide (a ≤ b)
  | NpFloat.fin _, NpFloat.ninf => false
  | NpFloat.fin _, _ => true
  | NpFloat.inf, NpFloat.ninf => false
  | NpFloat.inf, NpFloat.fin _ => false
  | NpFloat.inf, _ => true
  | NpFloat.nan, NpFloat.nan => true
  | NpFloat.nan, _ => false

/-- Insertion into a sorted list (helper for `np_sort`). -/
def insert_sorted (a : NpFloat) : List NpFloat → List NpFloat
  | [] => [a]
  | b :: l => if np_sort_le a b then a :: b :: l else b :: insert_sorted a l

/-- Model of `np.sort` (as insertion sort; same sorted values, see above). -/
def np_sort : List NpFloat → List NpFloat
  | [] => []
  | a :: l => insert_sorted a (np_sort l)

/-- Value of `np.sqrt(np.finfo(np.float64).eps)`, numpy's probability-sum
tolerance: exactly `2 ^ (-26)`. -/
def np_atol : ℚ := 1 / 2 ^ 26

/-- Model of `np.percentile(l, 20)` with the default linear interpolation;
`none` models the error numpy raises on an empty array. -/
def np_percentile20 (l : List NpFloat) : Option NpFloat :=
  if l.length = 0 then none
  else
    let s := np_sort l
    let pos : ℚ := ((l.length : ℚ) - 1) * 20 / 100
    let i0 : ℕ := ⌊pos⌋.toNat
    let frac : ℚ := pos - (i0 : ℚ)
    let lo := s.getD i0 NpFloat.nan
    let hi := s.getD (min (i0 + 1) (l.length - 1)) NpFloat.nan
    some (lo.add ((hi.sub lo).mul (NpFloat.fin frac)))

/-- Model of `np.random.choice(range(n), k, p = p)`: the documented argument
checks, then `k` indices in `range(n)` taken from the `draws` oracle. -/
def np_random_choice (n k : ℕ) (p : List NpFloat) (draws : ℕ → ℕ) :
    Except String (List ℕ) :=
  if p.length ≠ n then Except.error "a and p must have same size"
  else if p.any (fun x => x.lt (NpFloat.fin 0)) then
    Except.error "probabilities are not non-negative"
  else if (NpFloat.fin np_atol).lt (((NpFloat.sum p).sub (NpFloat.fin 1)).abs) then
    Except.error "probabilities do not sum to 1"
  else Except.ok ((List.range k).map fun j => draws j % n)

/-- The index set `i_particles_to_replace` of `resample_particles`:
`np.where(weights <= np.percentile(weights, 20))[0]`, in increasing
order. -/
def i_particles_to_replace (cloud : List Particle) : List ℕ :=
  match np_percentile20 (cloud.map Particle.w) with
  | none => []
  | some wtr =>
    (List.range cloud.length).filter fun i =>
      ((cloud.map Particle.w).getD i NpFloat.nan).le wtr

/-- One iteration of the replacement loop of `resample_particles`:
particle `i_replace` receives the donor's position, the donor's heading
plus the drawn perturbation `r`, and keeps its own weight (the loop
assigns only `.x`, `.y` and `.theta`).  Both reads are from the current
(partially rewritten) population, as in the Python in-place loop. -/
def replace_particle (cl : List Particle) (i_replace i_new : ℕ) (r : ℝ) : List Particle :=
  match cl[i_replace]?, cl[i_new]? with
  | some pr, some pn => cl.set i_replace ⟨pn.x, pn.y, pn.theta + r, pr.w⟩
  | _, _ => cl

/-- The replacement loop of `resample_particles` over the zipped
(replaced index, donor index) pairs; `i` counts loop iterations for the
perturbation oracle. -/
def resample_loop (cl : List Particle) (pairs : List (ℕ × ℕ)) (perturb : ℕ → ℝ) (i : ℕ) :
    List Particle :=
  match pairs with
  | [] => cl
  | (ir, inew) :: rest => resample_loop (replace_particle cl ir inew (perturb i)) rest perturb (i + 1)

/-- Model of `resample_particles`: 20th-percentile selection of the low-weight
particles, `np.random.choice` with the current weights as probabilities,
then the in-place replacement loop.  `Except.error` models the uncaught
numpy exceptions (empty population at `np.percentile`; a failed
probability check inside `np.random.choice`). -/
def resample_particles (cloud : List Particle) (draws : ℕ → ℕ) (perturb : ℕ → ℝ) :
    Except String (List Particle) :=
  if cloud.length = 0 then Except.error "zero-size array to reduction operation"
  else
    match np_random_choice cloud.length (i_particles_to_replace cloud).length
        (cloud.map Particle.w) draws with
    | Except.error e => Except.error e
    | Except.ok newLocs =>
      Except.ok (resample_loop cloud ((i_particles_to_replace cloud).zip newLocs) perturb 0)

/-- A one-particle population with unit weight, used by several witnesses
(its weight vector passes all of `np.random.choice`'s checks). -/
def wcloud : List Particle := [⟨0, 0, 0, NpFloat.fin 1⟩]

/-! ### Update trigger and the Tracking-state cycle (C5) -/

/-- Threshold `d_thresh` of the constructor: `0.2` distance units. -/
noncomputable def d_thresh : ℝ := 0.2

/-- Threshold `a_thresh` of the constructor: `pi/6` radians. -/
noncomputable def a_thresh : ℝ := Real.pi / 6

/-- Model of `moved_far_enough_to_update`: strict comparison of the absolute
per-axis odometry deltas against the thresholds. -/
def moved_far_enough_to_update (new_odom current_odom : ℝ × ℝ × ℝ) : Prop :=
  |new_odom.1 - current_odom.1| > d_thresh ∨
    |new_odom.2.1 - current_odom.2.1| > d_thresh ∨
    |new_odom.2.2 - current_odom.2.2| > a_thresh

open Classical in
/-- The Tracking-state body of `run_loop`: when the robot has moved far
enough, run motion update, measurement update, pose estimate and
resampling in that order; otherwise leave the population unchanged and
compute no pose estimate.  An `Except.error` is an uncaught numpy
exception escaping from `resample_particles`. -/
noncomputable def run_loop_tracking (current_odom new_odom : ℝ × ℝ × ℝ)
    (cloud : List Particle) (dists : List NpFloat) (robot_distance : NpFloat)
    (draws : ℕ → ℕ) (perturb : ℕ → ℝ) :
    Except String (List Particle × Option (ℝ × ℝ × ℝ)) :=
  if moved_far_enough_to_update new_odom current_odom then
    let c1 := update_particles_with_odom cloud current_odom new_odom
    let c2 := update_particles_with_laser c1 dists robot_distance
    match resample_particles c2 draws perturb with
    | Except.error e => Except.error e
    | Except.ok c3 => Except.ok (c3, update_robot_pose c2)
  else Except.ok (cloud, none)

lemma laser_errors_eq_spec_errors (dists : List NpFloat) (rd : NpFloat)
    (h : rd.isFinite = true) : laser_errors dists rd = spec_errors dists rd := by
  obtain ⟨q, rfl⟩ : ∃ q, rd = NpFloat.fin q := by
    cases rd <;> simp_all [NpFloat.isFinite]
  unfold laser_errors spec_errors
  refine List.map_congr_left fun d _ => ?_
  cases d <;> simp [NpFloat.sub, NpFloat.abs, NpFloat.isNaN]

/-- C1: with a finite observed minimum range, the weight vector computed by
the measurement update is exactly the spec's formula: `error_i =
|predicted_i - observed|` with `nan` predicted distances contributing an
error of exactly `5`, `ratio_i = error_0 / error_i`, and `w_i = ratio_i /
sum(ratio)`. -/
theorem laser_weights_match_spec (dists : List NpFloat) (rd : NpFloat)
    (h : rd.isFinite = true) : laser_weights dists rd = spec_weights dists rd := by
  unfold laser_weights spec_weights
  rw [show laser_ratio_vec (laser_errors dists rd)
        = (spec_errors dists rd).map fun e => ((spec_errors dists rd).headD NpFloat.nan).div e by
      rw [laser_ratio_vec, laser_errors_eq_spec_errors dists rd h]]

/-- Witness for C1 at a concrete input. -/
theorem laser_weights_match_spec_witness :
    (NpFloat.fin 2).isFinite = true ∧
      laser_weights [NpFloat.fin 1, NpFloat.nan] (NpFloat.fin 2)
        = spec_weights [NpFloat.fin 1, NpFloat.nan] (NpFloat.fin 2) :=
  ⟨rfl, laser_weights_match_spec [NpFloat.fin 1, NpFloat.nan] (NpFloat.fin 2) rfl⟩

/-! ### C2: the write-back loop coerces `nan` weights to `0` -/

lemma coerce_w (p : Particle) (wi : NpFloat) :
    ((if wi.isNaN then { p with w := NpFloat.fin 0 } else { p with w := wi }).w.isNaN
        = false) ∧
      (if wi.isNaN then { p with w := NpFloat.fin 0 } else { p with w := wi }).w
        = if wi.isNaN then NpFloat.fin 0 else wi := by
  cases wi <;> simp [NpFloat.isNaN]

/-- C2: after the measurement update the population has the same size, no
particle carries a `nan` weight, and particle `i`'s stored weight is the
computed weight `weights[i]`, with `nan` coerced to exactly `0`. -/
theorem laser_update_no_nan_weights (cloud : List Particle) (dists : List NpFloat)
    (rd : NpFloat) :
    (update_particles_with_laser cloud dists rd).length = cloud.length ∧
    (∀ p ∈ update_particles_with_laser cloud dists rd, p.w.isNaN = false) ∧
    (∀ i, i < cloud.length →
      ((update_particles_with_laser cloud dists rd).getD i default).w =
        if ((laser_weights dists rd).getD i NpFloat.nan).isNaN then NpFloat.fin 0
        else (laser_weights dists rd).getD i NpFloat.nan) := by
  refine ⟨by simp [update_particles_with_laser], ?_, ?_⟩
  · intro p hp
    simp only [update_particles_with_laser, List.mem_map] at hp
    obtain ⟨ip, hip, rfl⟩ := hp
    exact (coerce_w ip.2 ((laser_weights dists rd).getD ip.1 NpFloat.nan)).1
  · intro i hi
    have hlen : i < (update_particles_with_laser cloud dists rd).length := by
      simpa [update_particles_with_laser] using hi
    rw [List.getD_eq_getElem _ _ hlen]
    have hi' : i < cloud.enum.length := by simpa using hi
    calc (update_particles_with_laser cloud dists rd)[i].w
        = (if ((laser_weights dists rd).getD (cloud.enum[i]).1 NpFloat.nan).isNaN then
              { (cloud.enum[i]).2 with w := NpFloat.fin 0 }
            else
              { (cloud.enum[i]).2 with
                w := (laser_weights dists rd).getD (cloud.enum[i]).1 NpFloat.nan }).w := by
          simp only [update_particles_with_laser, List.getElem_map]
      _ = _ := by
          rw [(coerce_w (cloud.enum[i]).2
            ((laser_weights dists rd).getD (cloud.enum[i]).1 NpFloat.nan)).2]
          have : (cloud.enum[i]).1 = i := by simp
          rw [this]

/-- Witness for C2 at a concrete input (one particle, predicted distance
`1`, observed range `3`). -/
theorem laser_update_no_nan_weights_witness :
    ((0 : ℕ) < 1) ∧
      ((update_particles_with_laser [⟨0, 0, 0, NpFloat.fin 1⟩] [NpFloat.fin 1]
          (NpFloat.fin 3)).getD 0 default).w =
        if ((laser_weights [NpFloat.fin 1] (NpFloat.fin 3)).getD 0 NpFloat.nan).isNaN then
          NpFloat.fin 0
        else (laser_weights [NpFloat.fin 1] (NpFloat.fin 3)).getD 0 NpFloat.nan :=
  ⟨by norm_num,
    (laser_update_no_nan_weights [⟨0, 0, 0, NpFloat.fin 1⟩] [NpFloat.fin 1]
      (NpFloat.fin 3)).2.2 0 (by norm_num)⟩

/-! ### C10: a zero error anywhere forces every weight to `0` -/

lemma NpFloat.add_nan_right (x : NpFloat) : x.add NpFloat.nan = NpFloat.nan := by
  cases x <;> rfl

lemma NpFloat.foldl_add_nan_acc (l : List NpFloat) :
    l.foldl NpFloat.add NpFloat.nan = NpFloat.nan := by
  induction l with
  | nil => rfl
  | cons x xs ih => simpa [NpFloat.add] using ih

lemma NpFloat.sum_eq_nan_of_mem (l : List NpFloat) (h : NpFloat.nan ∈ l) :
    NpFloat.sum l = NpFloat.nan := by
  unfold NpFloat.sum
  generalize NpFloat.fin 0 = acc
  induction l generalizing acc with
  | nil => simp at h
  | cons x xs ih =>
    rcases List.mem_cons.mp h with rfl | hx
    · simpa [NpFloat.add_nan_right] using NpFloat.foldl_add_nan_acc xs
    · exact ih hx _

lemma NpFloat.foldl_add_inf_acc (l : List NpFloat)
    (hl : ∀ x ∈ l, x.isNaN = false ∧ x ≠ NpFloat.ninf) :
    l.foldl NpFloat.add NpFloat.inf = NpFloat.inf := by
  induction l with
  | nil => rfl
  | cons x xs ih =>
    obtain ⟨h1, h2⟩ := hl x (List.mem_cons_self x xs)
    have : NpFloat.add NpFloat.inf x = NpFloat.inf := by
      cases x <;> simp_all [NpFloat.add, NpFloat.isNaN]
    rw [List.foldl_cons, this]
    exact ih fun y hy => hl y (List.mem_cons_of_mem x hy)

lemma NpFloat.sum_eq_inf (l : List NpFloat)
    (hl : ∀ x ∈ l, x.isNaN = false ∧ x ≠ NpFloat.ninf) (h : NpFloat.inf ∈ l) :
    NpFloat.sum l = NpFloat.inf := by
  unfold NpFloat.sum
  have key : ∀ (l' : List NpFloat) (a : ℚ),
      (∀ x ∈ l', x.isNaN = false ∧ x ≠ NpFloat.ninf) → NpFloat.inf ∈ l' →
      l'.foldl NpFloat.add (NpFloat.fin a) = NpFloat.inf := by
    intro l'
    induction l' with
    | nil => intro a _ h; simp at h
    | cons x xs ih =>
      intro a hl' hmem
      rcases List.mem_cons.mp hmem with rfl | hx
      · rw [List.foldl_cons, show NpFloat.add (NpFloat.fin a) NpFloat.inf = NpFloat.inf from rfl]
        exact NpFloat.foldl_add_inf_acc xs fun y hy => hl' y (List.mem_cons_of_mem _ hy)
      · obtain ⟨h1, h2⟩ := hl' x (List.mem_cons_self x xs)
        cases x with
        | fin b =>
          rw [List.foldl_cons, show NpFloat.add (NpFloat.fin a) (NpFloat.fin b)
                = NpFloat.fin (a + b) from rfl]
          exact ih (a + b) (fun y hy => hl' y (List.mem_cons_of_mem _ hy)) hx
        | inf =>
          rw [List.foldl_cons, show NpFloat.add (NpFloat.fin a) NpFloat.inf
                = NpFloat.inf from rfl]
          exact NpFloat.foldl_add_inf_acc xs fun y hy => hl' y (List.mem_cons_of_mem _ hy)
        | ninf => exact absurd rfl h2
        | nan => simp [NpFloat.isNaN] at h1
  exact key l 0 hl h

lemma laser_errors_entries (dists : List NpFloat) (rd : NpFloat) :
    ∀ e ∈ laser_errors dists rd, e = NpFloat.inf ∨ ∃ q, 0 ≤ q ∧ e = NpFloat.fin q := by
  intro e he
  simp only [laser_errors, List.mem_map] at he
  obtain ⟨d, _, rfl⟩ := he
  cases d <;> cases rd <;>
    simp [NpFloat.sub, NpFloat.abs, NpFloat.isNaN, abs_nonneg]

/-- Core of the C10 argument, phrased over an arbitrary error vector whose
entries are non-negative rationals or `inf`, one of them being `0`. -/
lemma ratio_weights_zero_or_nan (errs : List NpFloat)
    (hentries : ∀ e ∈ errs, e = NpFloat.inf ∨ ∃ q, 0 ≤ q ∧ e = NpFloat.fin q)
    (h0 : NpFloat.fin 0 ∈ errs) :
    ∀ w ∈ (laser_ratio_vec errs).map
        fun x => x.div (NpFloat.sum (laser_ratio_vec errs)),
      w = NpFloat.fin 0 ∨ w = NpFloat.nan := by
  obtain ⟨e0, es, rfl⟩ : ∃ e0 es, errs = e0 :: es := by
    cases errs with
    | nil => simp at h0
    | cons a as => exact ⟨a, as, rfl⟩
  intro w hw
  simp only [laser_ratio_vec, List.headD_cons, List.mem_map] at hw
  obtain ⟨rt, ⟨e, heme, rfl⟩, rfl⟩ := hw
  rcases hentries e0 (List.mem_cons_self _ _) with he0 | ⟨q0, hq0, he0⟩
  · -- anchor error is inf: ratio_0 = inf/inf = nan, so the sum is nan
    have hnan : NpFloat.nan ∈ (e0 :: es).map fun e => e0.div e := by
      refine List.mem_map.mpr ⟨e0, List.mem_cons_self _ _, ?_⟩
      rw [he0]
      rfl
    rw [NpFloat.sum_eq_nan_of_mem _ hnan]
    right
    cases e0.div e <;> rfl
  · by_cases hz : q0 = 0
    · -- anchor error is 0: ratio_0 = 0/0 = nan, so the sum is nan
      subst hz
      have hnan : NpFloat.nan ∈ (e0 :: es).map fun e => e0.div e := by
        refine List.mem_map.mpr ⟨e0, List.mem_cons_self _ _, ?_⟩
        rw [he0]
        simp [NpFloat.div]
      rw [NpFloat.sum_eq_nan_of_mem _ hnan]
      right
      cases e0.div e <;> rfl
    · -- anchor error is positive: ratio at the zero error is e0/0 = inf
      have hq0' : 0 < q0 := lt_of_le_of_ne hq0 (Ne.symm hz)
      have hinf : NpFloat.inf ∈ (e0 :: es).map fun e => e0.div e := by
        refine List.mem_map.mpr ⟨NpFloat.fin 0, h0, ?_⟩
        rw [he0]
        simp [NpFloat.div, hz, hq0']
      have hok : ∀ x ∈ (e0 :: es).map fun e => e0.div e,
          x.isNaN = false ∧ x ≠ NpFloat.ninf := by
        intro x hx
        obtain ⟨e', he', rfl⟩ := List.mem_map.mp hx
        rcases hentries e' he' with rfl | ⟨p, hp, rfl⟩
        · rw [he0]
          simp [NpFloat.div, NpFloat.isNaN]
        · by_cases hpz : p = 0
          · subst hpz
            rw [he0]
            simp [NpFloat.div, hz, hq0', NpFloat.isNaN]
          · rw [he0]
            simp [NpFloat.div, hpz, NpFloat.isNaN]
      rw [NpFloat.sum_eq_inf _ hok hinf]
      rcases hentries e heme with rfl | ⟨p, hp, rfl⟩
      · rw [he0]
        left
        rfl
      · rw [he0]
        by_cases hpz : p = 0
        · subst hpz
          right
          simp [NpFloat.div, hz, hq0']
        · left
          simp [NpFloat.div, hpz]

lemma laser_weights_zero_or_nan (dists : List NpFloat) (rd : NpFloat)
    (hfin : rd.isFinite = true)
    (hk : ∃ k, k < dists.length ∧ dists.getD k NpFloat.nan = rd) :
    ∀ w ∈ laser_weights dists rd, w = NpFloat.fin 0 ∨ w = NpFloat.nan := by
  obtain ⟨r, rfl⟩ : ∃ r, rd = NpFloat.fin r := by
    cases rd <;> simp_all [NpFloat.isFinite]
  obtain ⟨k, hklen, hkd⟩ := hk
  have hk2 : k < (laser_errors dists (NpFloat.fin r)).length := by
    simpa [laser_errors] using hklen
  have h0 : NpFloat.fin 0 ∈ laser_errors dists (NpFloat.fin r) := by
    have hkelem : (laser_errors dists (NpFloat.fin r))[k] = NpFloat.fin 0 := by
      simp only [laser_errors, List.getElem_map]
      rw [List.getD_eq_getElem _ _ hklen] at hkd
      rw [hkd]
      simp [NpFloat.sub, NpFloat.abs, NpFloat.isNaN]
    rw [← hkelem]
    exact List.getElem_mem _
  exact ratio_weights_zero_or_nan (laser_errors dists (NpFloat.fin r))
    (laser_errors_entries dists (NpFloat.fin r)) h0

/-- C10: if some particle's predicted obstacle distance exactly equals the
(finite) observed minimum range, then after the measurement update every
particle in the population has weight exactly `0` (every computed weight
is either `0` or a `nan` coerced to `0`). -/
theorem laser_equal_distance_zeroes_all_weights (cloud : List Particle)
    (dists : List NpFloat) (rd : NpFloat) (hfin : rd.isFinite = true)
    (hk : ∃ k, k < dists.length ∧ dists.getD k NpFloat.nan = rd) :
    ∀ p ∈ update_particles_with_laser cloud dists rd, p.w = NpFloat.fin 0 := by
  intro p hp
  simp only [update_particles_with_laser, List.mem_map] at hp
  obtain ⟨ip, hip, rfl⟩ := hp
  by_cases hlt : ip.1 < (laser_weights dists rd).length
  · have hmem : (laser_weights dists rd).getD ip.1 NpFloat.nan ∈ laser_weights dists rd := by
      rw [List.getD_eq_getElem _ _ hlt]
      exact List.getElem_mem _
    rcases laser_weights_zero_or_nan dists rd hfin hk _ hmem with h0 | hnan
    · rw [h0]
      simp [NpFloat.isNaN]
    · rw [hnan]
      simp [NpFloat.isNaN]
  · rw [List.getD_eq_default _ _ (le_of_not_lt hlt)]
    simp [NpFloat.isNaN]

/-- Witness for C10 at a concrete input (predicted distances `2` and `3`,
observed range `2`). -/
theorem laser_equal_distance_zeroes_all_weights_witness :
    (NpFloat.fin 2).isFinite = true ∧
      (∃ k, k < ([NpFloat.fin 2, NpFloat.fin 3] : List NpFloat).length ∧
        ([NpFloat.fin 2, NpFloat.fin 3] : List NpFloat).getD k NpFloat.nan = NpFloat.fin 2) ∧
      ∀ p ∈ update_particles_with_laser [⟨0, 0, 0, NpFloat.fin 1⟩, ⟨1, 1, 1, NpFloat.fin 1⟩]
          [NpFloat.fin 2, NpFloat.fin 3] (NpFloat.fin 2), p.w = NpFloat.fin 0 :=
  ⟨rfl, ⟨0, by norm_num, rfl⟩,
    laser_equal_distance_zeroes_all_weights
      [⟨0, 0, 0, NpFloat.fin 1⟩, ⟨1, 1, 1, NpFloat.fin 1⟩]
      [NpFloat.fin 2, NpFloat.fin 3] (NpFloat.fin 2) rfl ⟨0, by norm_num, rfl⟩⟩

/-- C6: initialization with mean pose `(x0, y0, theta0)` and count `n`
produces exactly the population of `n` particles at `(x0, y0)` with
headings `theta0 + i * (2*pi/n)` (unit weight, the `Particle` constructor
default), and the recorded best pose estimate is exactly
`update_robot_pose` of that freshly seeded population. -/
theorem initialize_particle_cloud_spec (n : ℕ) (x0 y0 theta0 : ℝ) :
    (initialize_particle_cloud n (x0, y0, theta0)).1
        = (List.range n).map
            (fun i => ⟨x0, y0, theta0 + i * (2 * Real.pi / n), NpFloat.fin 1⟩) ∧
      (initialize_particle_cloud n (x0, y0, theta0)).2
        = update_robot_pose (initialize_particle_cloud n (x0, y0, theta0)).1 := by
  constructor
  · simp only [initialize_particle_cloud]
    refine List.map_congr_left fun i _ => ?_
    simp [mul_comm]
  · rfl

/-! ### Order lemmas for the embedded floats, restricted to non-`nan`
values (where IEEE `<=`/`<` form a total order) -/

lemma NpFloat.le_refl' {x : NpFloat} (h : x.isNaN = false) : x.le x = true := by
  cases x <;> simp_all [NpFloat.le, NpFloat.isNaN]

lemma NpFloat.lt_of_not_le {x y : NpFloat} (hx : x.isNaN = false) (hy : y.isNaN = false)
    (h : x.le y = false) : y.lt x = true := by
  cases x <;> cases y <;> simp_all [NpFloat.le, NpFloat.lt, NpFloat.isNaN] <;> linarith

lemma NpFloat.le_of_lt' {x y : NpFloat} (h : x.lt y = true) : x.le y = true := by
  cases x <;> cases y <;> simp_all [NpFloat.le, NpFloat.lt] <;> linarith

lemma NpFloat.lt_of_le_of_lt' {x y z : NpFloat} (h1 : x.le y = true) (h2 : y.lt z = true) :
    x.lt z = true := by
  cases x <;> cases y <;> cases z <;> simp_all [NpFloat.le, NpFloat.lt] <;> linarith

lemma NpFloat.le_trans' {x y z : NpFloat} (h1 : x.le y = true) (h2 : y.le z = true) :
    x.le z = true := by
  cases x <;> cases y <;> cases z <;> simp_all [NpFloat.le, NpFloat.lt] <;> linarith

/-- Invariant of numpy's argmax loop on `nan`-free data: either nothing
beat the running maximum, or the result points at the first strict
improvement that dominates the rest. -/
lemma np_argmax_go_spec (xs : List NpFloat) (i : ℕ) (mp : NpFloat) (imax : ℕ)
    (hmp : mp.isNaN = false) (hxs : ∀ x ∈ xs, x.isNaN = false) :
    (np_argmax_go xs i mp imax = imax ∧ ∀ x ∈ xs, x.le mp = true) ∨
      (∃ k, k < xs.length ∧ np_argmax_go xs i mp imax = i + k ∧
        mp.lt (xs.getD k NpFloat.nan) = true ∧
        (∀ j, j < k → (xs.getD j NpFloat.nan).lt (xs.getD k NpFloat.nan) = true) ∧
        (∀ x ∈ xs, x.le (xs.getD k NpFloat.nan) = true)) := by
  induction xs generalizing i mp imax with
  | nil => exact Or.inl ⟨rfl, by simp⟩
  | cons x xs ih =>
    have hx : x.isNaN = false := hxs x (List.mem_cons_self _ _)
    have hxs' : ∀ y ∈ xs, y.isNaN = false := fun y hy => hxs y (List.mem_cons_of_mem _ hy)
    by_cases hle : x.le mp = true
    · have hgo : np_argmax_go (x :: xs) i mp imax = np_argmax_go xs (i + 1) mp imax := by
        simp [np_argmax_go, hmp, hle]
      rcases ih (i + 1) mp imax hmp hxs' with ⟨hres, hall⟩ | ⟨k, hklen, hres, hlt, hfirst, hall⟩
      · refine Or.inl ⟨by rw [hgo, hres], ?_⟩
        intro y hy
        rcases List.mem_cons.mp hy with rfl | hy'
        · exact hle
        · exact hall y hy'
      · refine Or.inr ⟨k + 1, by simpa using Nat.succ_lt_succ hklen, ?_, ?_, ?_, ?_⟩
        · rw [hgo, hres]
          omega
        · simpa [List.getD_cons_succ] using hlt
        · intro j hj
          cases j with
          | zero =>
            simp only [List.getD_cons_zero, List.getD_cons_succ]
            exact NpFloat.lt_of_le_of_lt' hle hlt
          | succ j' =>
            simp only [List.getD_cons_succ]
            exact hfirst j' (by omega)
        · intro y hy
          rcases List.mem_cons.mp hy with rfl | hy'
          · simp only [List.getD_cons_succ]
            exact NpFloat.le_trans' hle (NpFloat.le_of_lt' hlt)
          · simp only [List.getD_cons_succ]
            exact hall y hy'
    · have hle' : x.le mp = false := by simpa using hle
      have hmplt : mp.lt x = true := NpFloat.lt_of_not_le hx hmp hle'
      have hgo : np_argmax_go (x :: xs) i mp imax = np_argmax_go xs (i + 1) x i := by
        simp [np_argmax_go, hmp, hle']
      rcases ih (i + 1) x i hx hxs' with ⟨hres, hall⟩ | ⟨k, hklen, hres, hlt, hfirst, hall⟩
      · refine Or.inr ⟨0, by simp, by rw [hgo, hres]; omega, ?_, ?_, ?_⟩
        · simpa [List.getD_cons_zero] using hmplt
        · intro j hj
          omega
        · intro y hy
          rcases List.mem_cons.mp hy with rfl | hy'
          · simpa [List.getD_cons_zero] using NpFloat.le_refl' hx
          · simpa [List.getD_cons_zero] using hall y hy'
      · refine Or.inr ⟨k + 1, by simpa using Nat.succ_lt_succ hklen, ?_, ?_, ?_, ?_⟩
        · rw [hgo, hres]
          omega
        · simp only [List.getD_cons_succ]
          exact NpFloat.lt_of_le_of_lt' (NpFloat.le_of_lt' hmplt) hlt
        · intro j hj
          cases j with
          | zero =>
            simp only [List.getD_cons_zero, List.getD_cons_succ]
            exact hlt
          | succ j' =>
            simp only [List.getD_cons_succ]
            exact hfirst j' (by omega)
        · intro y hy
          rcases List.mem_cons.mp hy with rfl | hy'
          · simp only [List.getD_cons_succ]
            exact NpFloat.le_of_lt' hlt
          · simp only [List.getD_cons_succ]
            exact hall y hy'

lemma np_argmax_spec (l : List NpFloat) (hne : l ≠ [])
    (hl : ∀ x ∈ l, x.isNaN = false) :
    np_argmax l < l.length ∧
      (∀ x ∈ l, x.le (l.getD (np_argmax l) NpFloat.nan) = true) ∧
      (∀ j, j < np_argmax l →
        (l.getD j NpFloat.nan).lt (l.getD (np_argmax l) NpFloat.nan) = true) := by
  obtain ⟨x, xs, rfl⟩ : ∃ x xs, l = x :: xs := by
    cases l with
    | nil => exact absurd rfl hne
    | cons a as => exact ⟨a, as, rfl⟩
  have hx : x.isNaN = false := hl x (List.mem_cons_self _ _)
  have hxs : ∀ y ∈ xs, y.isNaN = false := fun y hy => hl y (List.mem_cons_of_mem _ hy)
  have hdef : np_argmax (x :: xs) = np_argmax_go xs 1 x 0 := rfl
  rcases np_argmax_go_spec xs 1 x 0 hx hxs with ⟨hres, hall⟩ | ⟨k, hklen, hres, hlt, hfirst, hall⟩
  · rw [hdef, hres]
    refine ⟨by simp, ?_, ?_⟩
    · intro y hy
      rcases List.mem_cons.mp hy with rfl | hy'
      · simpa [List.getD_cons_zero] using NpFloat.le_refl' hx
      · simpa [List.getD_cons_zero] using hall y hy'
    · intro j hj
      omega
  · rw [hdef, hres]
    have h1k : 1 + k = k + 1 := by omega
    rw [h1k]
    refine ⟨by simpa using Nat.succ_lt_succ hklen, ?_, ?_⟩
    · intro y hy
      rcases List.mem_cons.mp hy with rfl | hy'
      · simpa [List.getD_cons_succ] using NpFloat.le_of_lt' hlt
      · simpa [List.getD_cons_succ] using hall y hy'
    · intro j hj
      cases j with
      | zero =>
        simpa [List.getD_cons_zero, List.getD_cons_succ] using hlt
      | succ j' =>
        simpa [List.getD_cons_succ] using hfirst j' (by omega)

/-- C7: on a non-empty population with no `nan` weight, the pose estimator
returns the pose of an existing particle of the population, namely the one
with the maximum weight, ties broken by first occurrence (all earlier
particles have strictly smaller weight). -/
theorem update_robot_pose_first_max (cloud : List Particle) (hne : cloud ≠ [])
    (hw : ∀ p ∈ cloud, p.w.isNaN = false) :
    ∃ i, i < cloud.length ∧
      update_robot_pose cloud
        = some ((cloud.getD i default).x, (cloud.getD i default).y,
            (cloud.getD i default).theta) ∧
      (∀ p ∈ cloud, p.w.le (cloud.getD i default).w = true) ∧
      (∀ j, j < i → ((cloud.getD j default).w).lt ((cloud.getD i default).w) = true) := by
  obtain ⟨p, ps, rfl⟩ : ∃ p ps, cloud = p :: ps := by
    cases cloud with
    | nil => exact absurd rfl hne
    | cons a as => exact ⟨a, as, rfl⟩
  have hlw : ∀ x ∈ (p :: ps).map Particle.w, x.isNaN = false := by
    intro x hx
    obtain ⟨q, hq, rfl⟩ := List.mem_map.mp hx
    exact hw q hq
  obtain ⟨hlt, hall, hfirst⟩ := np_argmax_spec ((p :: ps).map Particle.w) (by simp) hlw
  have hlt' : np_argmax ((p :: ps).map Particle.w) < (p :: ps).length := by
    simpa using hlt
  have hgetw : ∀ j, j < (p :: ps).length →
      ((p :: ps).map Particle.w).getD j NpFloat.nan = ((p :: ps).getD j default).w := by
    intro j hj
    rw [List.getD_eq_getElem _ _ (by simpa using hj), List.getD_eq_getElem _ _ hj]
    rw [List.getElem_map]
  refine ⟨np_argmax ((p :: ps).map Particle.w), hlt', ?_, ?_, ?_⟩
  · show some _ = _
    rw [List.getD_eq_getElem (p :: ps) p hlt', List.getD_eq_getElem (p :: ps) default hlt']
  · intro q hq
    have := hall q.w (List.mem_map_of_mem Particle.w hq)
    rwa [hgetw _ hlt'] at this
  · intro j hj
    have := hfirst j hj
    rwa [hgetw _ hlt', hgetw _ (by omega)] at this

/-- Witness for C7 at a concrete two-particle population. -/
theorem update_robot_pose_first_max_witness :
    ([(⟨0, 0, 0, NpFloat.fin 1⟩ : Particle), ⟨1, 2, 3, NpFloat.fin 2⟩] ≠ []) ∧
      (∀ p ∈ [(⟨0, 0, 0, NpFloat.fin 1⟩ : Particle), ⟨1, 2, 3, NpFloat.fin 2⟩],
        p.w.isNaN = false) ∧
      ∃ i, i < ([(⟨0, 0, 0, NpFloat.fin 1⟩ : Particle), ⟨1, 2, 3, NpFloat.fin 2⟩]).length ∧
        update_robot_pose [(⟨0, 0, 0, NpFloat.fin 1⟩ : Particle), ⟨1, 2, 3, NpFloat.fin 2⟩]
          = some ((([(⟨0, 0, 0, NpFloat.fin 1⟩ : Particle), ⟨1, 2, 3, NpFloat.fin 2⟩]).getD i
                default).x,
              (([(⟨0, 0, 0, NpFloat.fin 1⟩ : Particle), ⟨1, 2, 3, NpFloat.fin 2⟩]).getD i
                default).y,
              (([(⟨0, 0, 0, NpFloat.fin 1⟩ : Particle), ⟨1, 2, 3, NpFloat.fin 2⟩]).getD i
                default).theta) ∧
        (∀ p ∈ [(⟨0, 0, 0, NpFloat.fin 1⟩ : Particle), ⟨1, 2, 3, NpFloat.fin 2⟩],
          p.w.le ((([(⟨0, 0, 0, NpFloat.fin 1⟩ : Particle),
            ⟨1, 2, 3, NpFloat.fin 2⟩]).getD i default).w) = true) ∧
        (∀ j, j < i →
          ((([(⟨0, 0, 0, NpFloat.fin 1⟩ : Particle), ⟨1, 2, 3, NpFloat.fin 2⟩]).getD j
              default).w).lt
            ((([(⟨0, 0, 0, NpFloat.fin 1⟩ : Particle), ⟨1, 2, 3, NpFloat.fin 2⟩]).getD i
              default).w) = true) := by
  have hw : ∀ p ∈ [(⟨0, 0, 0, NpFloat.fin 1⟩ : Particle), ⟨1, 2, 3, NpFloat.fin 2⟩],
      p.w.isNaN = false := by
    intro p hp
    rcases List.mem_cons.mp hp with rfl | hp'
    · rfl
    · rcases List.mem_cons.mp hp' with rfl | hp''
      · rfl
      · simp at hp''
  exact ⟨by simp, hw,
    update_robot_pose_first_max [⟨0, 0, 0, NpFloat.fin 1⟩, ⟨1, 2, 3, NpFloat.fin 2⟩]
      (by simp) hw⟩

lemma det_create_pose (v : ℝ × ℝ × ℝ) : (create_pose v).det = 1 := by
  rw [Matrix.det_fin_three]
  simp [create_pose]
  ring_nf
  nlinarith [Real.sin_sq_add_cos_sq v.2.2]

lemma create_pose_inv_mul_self (c : ℝ × ℝ × ℝ) :
    (create_pose c)⁻¹ * create_pose c = 1 :=
  Matrix.nonsing_inv_mul _ (by rw [det_create_pose]; exact isUnit_one)

lemma arctan2_sin_cos {t : ℝ} (h : t ∈ Set.Ioc (-Real.pi) Real.pi) :
    arctan2 (Real.sin t) (Real.cos t) = t := by
  unfold arctan2
  rw [Complex.mk_eq_add_mul_I, Complex.ofReal_cos, Complex.ofReal_sin]
  exact Complex.arg_cos_add_sin_mul_I h

lemma update_particles_with_odom_same (cloud : List Particle) (c : ℝ × ℝ × ℝ) :
    update_particles_with_odom cloud c c
      = cloud.map fun p => ⟨p.x, p.y, arctan2 (Real.sin p.theta) (Real.cos p.theta), p.w⟩ := by
  unfold update_particles_with_odom
  rw [create_pose_inv_mul_self]
  refine List.map_congr_left fun p _ => ?_
  rw [Matrix.mul_one]
  have hx : (create_pose (p.x, p.y, p.theta)) 0 2 = p.x := by simp [create_pose]
  have hy : (create_pose (p.x, p.y, p.theta)) 1 2 = p.y := by simp [create_pose]
  have hs : (create_pose (p.x, p.y, p.theta)) 1 0 = Real.sin p.theta := by simp [create_pose]
  have hc : (create_pose (p.x, p.y, p.theta)) 0 0 = Real.cos p.theta := by simp [create_pose]
  show (⟨create_pose (p.x, p.y, p.theta) 0 2, create_pose (p.x, p.y, p.theta) 1 2,
      arctan2 (create_pose (p.x, p.y, p.theta) 1 0) (create_pose (p.x, p.y, p.theta) 0 0),
      p.w⟩ : Particle) = _
  rw [hx, hy, hs, hc]

/-- C3 (amended): with equal previous and current odometry poses (identity
delta), the motion update leaves every particle's position unchanged; the
heading is also unchanged provided it lies in `(-pi, pi]`, the principal
range of `arctan2`. -/
theorem odom_identity_delta_preserves (cloud : List Particle) (c : ℝ × ℝ × ℝ)
    (h : ∀ p ∈ cloud, p.theta ∈ Set.Ioc (-Real.pi) Real.pi) :
    update_particles_with_odom cloud c c = cloud := by
  rw [update_particles_with_odom_same]
  have : ∀ p ∈ cloud,
      (⟨p.x, p.y, arctan2 (Real.sin p.theta) (Real.cos p.theta), p.w⟩ : Particle) = p := by
    intro p hp
    rw [arctan2_sin_cos (h p hp)]
  rw [List.map_congr_left this]
  simp

/-- Witness for the amended C3 at a concrete particle and odometry pose. -/
theorem odom_identity_delta_preserves_witness :
    (∀ p ∈ [(⟨1, 2, 0, NpFloat.fin 1⟩ : Particle)], p.theta ∈ Set.Ioc (-Real.pi) Real.pi) ∧
      update_particles_with_odom [(⟨1, 2, 0, NpFloat.fin 1⟩ : Particle)] (3, 4, 0) (3, 4, 0)
        = [(⟨1, 2, 0, NpFloat.fin 1⟩ : Particle)] := by
  have h : ∀ p ∈ [(⟨1, 2, 0, NpFloat.fin 1⟩ : Particle)],
      p.theta ∈ Set.Ioc (-Real.pi) Real.pi := by
    intro p hp
    rcases List.mem_cons.mp hp with rfl | hp'
    · constructor
      · simp [Real.pi_pos]
      · exact le_of_lt Real.pi_pos
    · simp at hp'
  exact ⟨h, odom_identity_delta_preserves [⟨1, 2, 0, NpFloat.fin 1⟩] (3, 4, 0) h⟩

/-- C3 (counterexample to the claim as stated): a particle with heading
`2*pi` is changed by a motion update whose odometry delta is the identity
transform — the heading is renormalized to `arctan2(sin(2*pi),
cos(2*pi)) = 0`. -/
theorem odom_identity_delta_counterexample :
    update_particles_with_odom [(⟨0, 0, 2 * Real.pi, NpFloat.fin 1⟩ : Particle)]
        (0, 0, 0) (0, 0, 0)
      ≠ [(⟨0, 0, 2 * Real.pi, NpFloat.fin 1⟩ : Particle)] := by
  rw [update_particles_with_odom_same]
  intro hcontra
  have h1 : arctan2 (Real.sin (2 * Real.pi)) (Real.cos (2 * Real.pi)) = 0 := by
    rw [Real.sin_two_pi, Real.cos_two_pi]
    unfold arctan2
    rw [show (⟨(1 : ℝ), (0 : ℝ)⟩ : ℂ) = 1 by apply Complex.ext <;> simp]
    exact Complex.arg_one
  simp only [List.map_cons, List.map_nil, List.cons.injEq, and_true] at hcontra
  have h2 : arctan2 (Real.sin (2 * Real.pi)) (Real.cos (2 * Real.pi)) = 2 * Real.pi := by
    have := congrArg Particle.theta hcontra
    simpa using this
  rw [h1] at h2
  have := Real.pi_pos
  linarith

/-! ### C4: resampling fails on weights that do not sum to 1 -/

/-- C4 (counterexample to the claim as stated): on a population of three
particles with non-negative weights `1` each (sum `3`, not `1`),
resampling does not complete — `np.random.choice` rejects the
non-normalized probability vector. -/
theorem resample_nonnormalized_error :
    resample_particles
        [(⟨0, 0, 0, NpFloat.fin 1⟩ : Particle), ⟨0, 0, 0, NpFloat.fin 1⟩,
          ⟨0, 0, 0, NpFloat.fin 1⟩] (fun _ => 0) (fun _ => 0)
      = Except.error "probabilities do not sum to 1" := by
  have hch : ∀ k, np_random_choice 3 k
      ([(⟨0, 0, 0, NpFloat.fin 1⟩ : Particle), ⟨0, 0, 0, NpFloat.fin 1⟩,
        ⟨0, 0, 0, NpFloat.fin 1⟩].map Particle.w) (fun _ => 0)
      = Except.error "probabilities do not sum to 1" := by
    intro k
    unfold np_random_choice
    rw [if_neg (by simp)]
    rw [if_neg (by simp [NpFloat.lt])]
    rw [if_pos (by
      simp [NpFloat.sum, NpFloat.add, NpFloat.sub, NpFloat.abs, NpFloat.lt, np_atol]
      norm_num [abs_of_pos])]
  unfold resample_particles
  rw [if_neg (by simp)]
  rw [show ([(⟨0, 0, 0, NpFloat.fin 1⟩ : Particle), ⟨0, 0, 0, NpFloat.fin 1⟩,
      ⟨0, 0, 0, NpFloat.fin 1⟩] : List Particle).length = 3 from rfl]
  rw [hch]

/-- C4 (amended): when the weight vector passes `np.random.choice`'s
checks — no negative entry and `abs(sum - 1) <= 2^-26` — resampling on a
non-empty population completes without failure, producing the replacement
loop applied to the zip of the percentile-selected low-weight indices
with as many donor indices, each a valid index of the population. -/
theorem resample_ok_when_normalized (cloud : List Particle) (draws : ℕ → ℕ) (perturb : ℕ → ℝ)
    (hne : cloud ≠ [])
    (hnonneg : (cloud.map Particle.w).any (fun x => x.lt (NpFloat.fin 0)) = false)
    (hsum : (NpFloat.fin np_atol).lt
        (((NpFloat.sum (cloud.map Particle.w)).sub (NpFloat.fin 1)).abs) = false) :
    resample_particles cloud draws perturb
      = Except.ok (resample_loop cloud
          ((i_particles_to_replace cloud).zip
            ((List.range (i_particles_to_replace cloud).length).map
              fun j => draws j % cloud.length))
          perturb 0) := by
  unfold resample_particles np_random_choice
  rw [if_neg (by simpa using hne)]
  rw [if_neg (by simp)]
  rw [if_neg (by simp [hnonneg])]
  rw [if_neg (by simp [hsum])]

/-- Witness for the amended C4 at a concrete one-particle population. -/
theorem resample_ok_when_normalized_witness :
    (wcloud ≠ []) ∧
      ((wcloud.map Particle.w).any (fun x => x.lt (NpFloat.fin 0)) = false) ∧
      ((NpFloat.fin np_atol).lt
          (((NpFloat.sum (wcloud.map Particle.w)).sub (NpFloat.fin 1)).abs) = false) ∧
      ∃ out, resample_particles wcloud (fun _ => 0) (fun _ => 0) = Except.ok out := by
  have h1 : wcloud ≠ [] := by simp [wcloud]
  have h2 : (wcloud.map Particle.w).any (fun x => x.lt (NpFloat.fin 0)) = false := by
    simp [wcloud, NpFloat.lt]
  have h3 : (NpFloat.fin np_atol).lt
      (((NpFloat.sum (wcloud.map Particle.w)).sub (NpFloat.fin 1)).abs) = false := by
    simp [wcloud, NpFloat.sum, NpFloat.add, NpFloat.sub, NpFloat.abs, NpFloat.lt, np_atol]
  exact ⟨h1, h2, h3, ⟨_, resample_ok_when_normalized wcloud (fun _ => 0) (fun _ => 0) h1 h2 h3⟩⟩

/-! ### Inversion of a successful resampling, and the C8/C9 frame lemmas -/

lemma resample_particles_ok_inv (cloud : List Particle) (draws : ℕ → ℕ) (perturb : ℕ → ℝ)
    (out : List Particle)
    (hok : resample_particles cloud draws perturb = Except.ok out) :
    out = resample_loop cloud
        ((i_particles_to_replace cloud).zip
          ((List.range (i_particles_to_replace cloud).length).map
            fun j => draws j % cloud.length))
        perturb 0 := by
  unfold resample_particles at hok
  split at hok
  · simp at hok
  · split at hok
    · simp at hok
    · rename_i newLocs heq
      unfold np_random_choice at heq
      split at heq
      · simp at heq
      · split at heq
        · simp at heq
        · split at heq
          · simp at heq
          · rw [← Except.ok.inj heq] at hok
            exact (Except.ok.inj hok).symm

lemma getD_set_particle (l : List Particle) (i j : ℕ) (a : Particle) :
    (l.set i a).getD j default = if i = j ∧ i < l.length then a else l.getD j default := by
  rw [List.getD_eq_getElem?_getD, List.getElem?_set, List.getD_eq_getElem?_getD]
  by_cases hij : i = j
  · subst hij
    by_cases hlt : i < l.length
    · simp [hlt]
    · simp [hlt, List.getElem?_eq_none (le_of_not_lt hlt)]
  · simp [hij]

lemma replace_particle_w (cl : List Particle) (a b : ℕ) (r : ℝ) (j : ℕ) :
    ((replace_particle cl a b r).getD j default).w = (cl.getD j default).w := by
  unfold replace_particle
  cases h1 : cl[a]? with
  | none =>
    cases h2 : cl[b]? <;> simp [h1, h2]
  | some pr =>
    cases h2 : cl[b]? with
    | none => simp [h1, h2]
    | some pn =>
      simp only [h1, h2]
      rw [getD_set_particle]
      by_cases hcond : a = j ∧ a < cl.length
      · rw [if_pos hcond]
        obtain ⟨rfl, _⟩ := hcond
        rw [List.getD_eq_getElem?_getD, h1]
        rfl
      · rw [if_neg hcond]

lemma replace_particle_untouched (cl : List Particle) (a b : ℕ) (r : ℝ) (j : ℕ)
    (hja : a ≠ j) :
    (replace_particle cl a b r).getD j default = cl.getD j default := by
  unfold replace_particle
  cases h1 : cl[a]? with
  | none => cases h2 : cl[b]? <;> simp [h1, h2]
  | some pr =>
    cases h2 : cl[b]? with
    | none => simp [h1, h2]
    | some pn =>
      simp only [h1, h2]
      rw [getD_set_particle, if_neg (by tauto)]

lemma replace_particle_length (cl : List Particle) (a b : ℕ) (r : ℝ) :
    (replace_particle cl a b r).length = cl.length := by
  unfold replace_particle
  cases h1 : cl[a]? <;> cases h2 : cl[b]? <;> simp [h1, h2]

lemma resample_loop_w (pairs : List (ℕ × ℕ)) (perturb : ℕ → ℝ) :
    ∀ (cl : List Particle) (i j : ℕ),
      ((resample_loop cl pairs perturb i).getD j default).w = (cl.getD j default).w := by
  induction pairs with
  | nil => intro cl i j; rfl
  | cons pr rest ih =>
    intro cl i j
    obtain ⟨a, b⟩ := pr
    rw [resample_loop, ih, replace_particle_w]

lemma resample_loop_untouched (pairs : List (ℕ × ℕ)) (perturb : ℕ → ℝ) :
    ∀ (cl : List Particle) (i j : ℕ), (∀ pr ∈ pairs, pr.1 ≠ j) →
      (resample_loop cl pairs perturb i).getD j default = cl.getD j default := by
  induction pairs with
  | nil => intro cl i j _; rfl
  | cons pr rest ih =>
    intro cl i j hall
    obtain ⟨a, b⟩ := pr
    rw [resample_loop, ih _ _ _ fun q hq => hall q (List.mem_cons_of_mem _ hq),
      replace_particle_untouched _ _ _ _ _ (hall (a, b) (List.mem_cons_self _ _))]

lemma resample_loop_length (pairs : List (ℕ × ℕ)) (perturb : ℕ → ℝ) :
    ∀ (cl : List Particle) (i : ℕ), (resample_loop cl pairs perturb i).length = cl.length := by
  induction pairs with
  | nil => intro cl i; rfl
  | cons pr rest ih =>
    intro cl i
    obtain ⟨a, b⟩ := pr
    rw [resample_loop, ih, replace_particle_length]

/-- Concrete successful resampling run on `wcloud`, used to discharge the
`Except.ok` hypotheses of the C8/C9 witnesses: the single particle is
selected (its weight equals the 20th percentile), its donor is itself
(draw `0`), and the perturbation is `0`. -/
lemma resample_singleton_eval :
    resample_particles wcloud (fun _ => 0) (fun _ => 0) = Except.ok wcloud := by
  unfold wcloud
  simp [resample_particles, i_particles_to_replace, np_percentile20, np_sort, insert_sorted,
    np_sort_le, np_random_choice, np_atol, NpFloat.sum,
    NpFloat.add, NpFloat.sub, NpFloat.mul, NpFloat.abs, NpFloat.le, NpFloat.lt,
    List.range_succ, List.filter_cons, List.filter_nil]
  norm_num
  simp [resample_loop, replace_particle]

/-- C8: the motion update, the measurement update and (on success) the
resampling all preserve the population size; the pose estimator does not
modify the population at all (it only reads it, see
`update_robot_pose`). -/
theorem population_size_constant (cloud : List Particle) (cur new_odom : ℝ × ℝ × ℝ)
    (dists : List NpFloat) (rd : NpFloat) (draws : ℕ → ℕ) (perturb : ℕ → ℝ) :
    (update_particles_with_odom cloud cur new_odom).length = cloud.length ∧
      (update_particles_with_laser cloud dists rd).length = cloud.length ∧
      ∀ out, resample_particles cloud draws perturb = Except.ok out →
        out.length = cloud.length := by
  refine ⟨by simp [update_particles_with_odom], by simp [update_particles_with_laser], ?_⟩
  intro out hok
  rw [resample_particles_ok_inv cloud draws perturb out hok]
  exact resample_loop_length _ _ _ _

/-- Witness for C8 at a concrete population with a successful resampling. -/
theorem population_size_constant_witness :
    (resample_particles wcloud (fun _ => 0) (fun _ => 0) = Except.ok wcloud) ∧
      (update_particles_with_odom wcloud (0, 0, 0) (0, 0, 0)).length = wcloud.length ∧
      (update_particles_with_laser wcloud [] NpFloat.nan).length = wcloud.length ∧
      wcloud.length = wcloud.length :=
  ⟨resample_singleton_eval,
    (population_size_constant wcloud (0, 0, 0) (0, 0, 0) [] NpFloat.nan
      (fun _ => 0) (fun _ => 0)).1,
    (population_size_constant wcloud (0, 0, 0) (0, 0, 0) [] NpFloat.nan
      (fun _ => 0) (fun _ => 0)).2.1,
    (population_size_constant wcloud (0, 0, 0) (0, 0, 0) [] NpFloat.nan
      (fun _ => 0) (fun _ => 0)).2.2 wcloud resample_singleton_eval⟩

/-- C9: a successful resampling never modifies any particle's weight, and
every particle whose index is not in the selected low-weight set
`i_particles_to_replace` is left entirely unchanged. -/
theorem resample_weights_and_unselected_untouched (cloud : List Particle)
    (draws : ℕ → ℕ) (perturb : ℕ → ℝ) (out : List Particle)
    (hok : resample_particles cloud draws perturb = Except.ok out) :
    (∀ j, (out.getD j default).w = (cloud.getD j default).w) ∧
      ∀ j, j ∉ i_particles_to_replace cloud → out.getD j default = cloud.getD j default := by
  rw [resample_particles_ok_inv cloud draws perturb out hok]
  constructor
  · intro j
    exact resample_loop_w _ _ _ _ _
  · intro j hj
    refine resample_loop_untouched _ _ _ _ _ fun pr hpr => ?_
    intro heq
    exact hj (heq ▸ (List.of_mem_zip hpr).1)

/-- Witness for C9 at a concrete population with a successful resampling. -/
theorem resample_weights_and_unselected_untouched_witness :
    (resample_particles wcloud (fun _ => 0) (fun _ => 0) = Except.ok wcloud) ∧
      (∀ j, (wcloud.getD j default).w = (wcloud.getD j default).w) ∧
      ∀ j, j ∉ i_particles_to_replace wcloud →
        wcloud.getD j default = wcloud.getD j default :=
  ⟨resample_singleton_eval,
    (resample_weights_and_unselected_untouched wcloud (fun _ => 0) (fun _ => 0) wcloud
      resample_singleton_eval).1,
    (resample_weights_and_unselected_untouched wcloud (fun _ => 0) (fun _ => 0) wcloud
      resample_singleton_eval).2⟩

/-- C5: in the Tracking state the full pipeline (motion update,
measurement update, pose estimate, resample) runs exactly when
`|dx| > 0.2` or `|dy| > 0.2` or `|dtheta| > pi/6` relative to the
odometry reference; in particular a displacement of exactly `0.2` in `x`
with no `y`/`theta` change never triggers an update (the comparison is
strict). -/
theorem tracking_update_trigger (cur new_odom : ℝ × ℝ × ℝ) (cloud : List Particle)
    (dists : List NpFloat) (rd : NpFloat) (draws : ℕ → ℕ) (perturb : ℕ → ℝ) :
    (moved_far_enough_to_update new_odom cur ↔
      (|new_odom.1 - cur.1| > 0.2 ∨ |new_odom.2.1 - cur.2.1| > 0.2 ∨
        |new_odom.2.2 - cur.2.2| > Real.pi / 6)) ∧
      (moved_far_enough_to_update new_odom cur →
        run_loop_tracking cur new_odom cloud dists rd draws perturb
          = match resample_particles
              (update_particles_with_laser (update_particles_with_odom cloud cur new_odom)
                dists rd) draws perturb with
            | Except.error e => Except.error e
            | Except.ok c3 =>
              Except.ok (c3, update_robot_pose
                (update_particles_with_laser (update_particles_with_odom cloud cur new_odom)
                  dists rd))) ∧
      (¬ moved_far_enough_to_update new_odom cur →
        run_loop_tracking cur new_odom cloud dists rd draws perturb
          = Except.ok (cloud, none)) ∧
      ∀ c : ℝ × ℝ × ℝ, ¬ moved_far_enough_to_update (c.1 + 0.2, c.2.1, c.2.2) c := by
  refine ⟨by simp [moved_far_enough_to_update, d_thresh, a_thresh], ?_, ?_, ?_⟩
  · intro h
    rw [run_loop_tracking, if_pos h]
  · intro h
    rw [run_loop_tracking, if_neg h]
  · intro c
    unfold moved_far_enough_to_update d_thresh a_thresh
    push_neg
    refine ⟨?_, ?_, ?_⟩
    · rw [show c.1 + 0.2 - c.1 = (0.2 : ℝ) by ring,
        abs_of_nonneg (by norm_num : (0 : ℝ) ≤ 0.2)]
    · simp only [sub_self, abs_zero]
      norm_num
    · simp only [sub_self, abs_zero]
      positivity

/-- Witness for C5: with no odometry motion the pipeline does not run. -/
theorem tracking_update_trigger_witness :
    (¬ moved_far_enough_to_update (0, 0, 0) (0, 0, 0)) ∧
      run_loop_tracking (0, 0, 0) (0, 0, 0) wcloud [] NpFloat.nan (fun _ => 0) (fun _ => 0)
        = Except.ok (wcloud, none) := by
  have hnot : ¬ moved_far_enough_to_update ((0 : ℝ), (0 : ℝ), (0 : ℝ)) (0, 0, 0) := by
    unfold moved_far_enough_to_update d_thresh a_thresh
    push_neg
    refine ⟨by norm_num, by norm_num, ?_⟩
    simp only [sub_self, abs_zero]
    positivity
  exact ⟨hnot,
    (tracking_update_trigger (0, 0, 0) (0, 0, 0) wcloud [] NpFloat.nan
      (fun _ => 0) (fun _ => 0)).2.2.1 hnot⟩
